import Mathlib

/-!
Verification development for YUSR LinRZ (src/linrz.py), a desktop archive
utility. We shallowly embed the application's own logic: the format-dispatch
tables of `CompressionEngine.compress` and `CompressionEngine.decompress`,
the recursive directory walk of the three archive writers, the statistics
and progress-message accumulation, the output-directory creation performed
by `decompress`, the error surfacing of the GUI wrappers, and the
thread-spawning behaviour of `compress_files` / `extract_archive`.

The work actually done by the third-party archive libraries (zipfile,
tarfile, py7zr, rarfile) is abstracted: for `compress`, one oracle
supplies the compressed output size and another whether the writer / OS
raises while opening, writing or stat-ing the output file; for
`decompress`, an oracle supplies the member list (or a library failure).
Everything else is translated directly from the Python source.
-/

/-- Engine statistics, mirroring the Python dict with keys files and size
(`self.stats`). -/
structure Stats where
  files : Nat
  size : Nat
deriving DecidableEq

/-- A filesystem node: a regular file with a byte size, or a directory with
named children (in directory-scan order). -/
inductive FSEntry where
  | file (sz : Nat)
  | dir (children : List (String × FSEntry))

/-- Resolve a relative path (list of components) against a node, mirroring
what `Path(...)` lookups (`exists`, `is_file`) observe. -/
def resolve : List String → FSEntry → Option FSEntry
  | [], e => some e
  | _ :: _, .file _ => none
  | n :: rest, .dir cs =>
    match cs.find? (fun c => c.1 == n) with
    | some c => resolve rest c.2
    | none => none

/-- The final component of a path, as in `Path.name` (empty for the root). -/
def lastName (p : List String) : String :=
  (p.getLast?).getD ""

/-- Render a relative path the way `str()` renders a `PosixPath`. -/
def joinPath (p : List String) : String :=
  String.intercalate "/" p

/-- Python `str.split('.')`, over the character list: the groups between
the dots, with empty groups kept (splitting the empty string yields one
empty group). -/
def splitOnDot : List Char → List (List Char)
  | [] => [[]]
  | c :: rest =>
    if c == '.' then [] :: splitOnDot rest
    else
      match splitOnDot rest with
      | [] => [[c]]
      | g :: gs => (c :: g) :: gs

/-- Python `str.lower()` (ASCII case folding, character by character). -/
def pyLower (s : String) : String :=
  (s.toList.map Char.toLower).asString

/-- Python `str.upper()` (ASCII case folding, character by character). -/
def pyUpper (s : String) : String :=
  (s.toList.map Char.toUpper).asString

/-- CPython `PurePath.suffixes` on a file name: empty when the name ends in
a dot; otherwise strip leading dots, split on dots, drop the first piece and
re-attach a dot to each remaining piece. -/
def pySuffixes (name : String) : List String :=
  if name.toList.getLast? == some '.' then []
  else
    let stripped := name.toList.dropWhile (fun c => c == '.')
    (splitOnDot stripped).tail.map (fun s => "." ++ s.asString)

/-- CPython `PurePath.stem`: the name with its final suffix removed, where a
suffix requires a dot that is neither the first nor the last character. -/
def pyStem (name : String) : String :=
  let cs := name.toList
  match (cs.reverse.indexOf? '.') with
  | none => name
  | some j =>
    let i := cs.length - 1 - j
    if 0 < i ∧ i < cs.length - 1 then (cs.take i).asString else name

/-- `Path.mkdir(parents=True, exist_ok=True)` on the tree rooted at the
current working directory: create every missing directory on the path;
fail when the target or an intermediate component exists as a regular file
(`FileExistsError` / `NotADirectoryError` from the OS layer). -/
def mkdirParents : List String → FSEntry → Except String FSEntry
  | [], .dir cs => .ok (.dir cs)
  | [], .file _ => .error "FileExistsError"
  | _ :: _, .file _ => .error "NotADirectoryError"
  | n :: rest, .dir cs =>
    match cs.find? (fun c => c.1 == n) with
    | some c =>
      match mkdirParents rest c.2 with
      | .ok e2 => .ok (.dir (cs.map (fun c2 => if c2.1 == n then (n, e2) else c2)))
      | .error m => .error m
    | none =>
      match mkdirParents rest (.dir []) with
      | .ok e2 => .ok (.dir (cs ++ [(n, e2)]))
      | .error m => .error m

mutual

/-- All descendants of a node in the order produced by `Path.rglob('*')`:
each directory, in depth-first scan order starting from the source itself,
yields all of its children before the walk descends into its
subdirectories. -/
def dirChildren (p : List String) : FSEntry → List (List String × FSEntry)
  | .file _ => []
  | .dir cs => (cs.map (fun c => (p ++ [c.1], c.2))) ++ subdirsWalk p cs

def subdirsWalk (p : List String) : List (String × FSEntry) → List (List String × FSEntry)
  | [] => []
  | c :: rest => dirChildren (p ++ [c.1]) c.2 ++ subdirsWalk p rest

end

/-- Keep only the regular files of a walk, as the writers' `is_file()`
filter does. -/
def filesOf (l : List (List String × FSEntry)) : List (List String × Nat) :=
  l.filterMap (fun c => match c.2 with | .file sz => some (c.1, sz) | .dir _ => none)

/-- What one archive writer produced: the engine statistics it left behind,
the progress messages it emitted, and the entries (archive name, size)
written into the archive. -/
structure WriteResult where
  stats : Stats
  msgs : List String
  entries : List (List String × Nat)

/-- The per-file loop of `_compress_zip` over the `rglob` walk: regular
files are added under their path relative to the source's parent, the
statistics are incremented and one progress message is emitted per file;
directories are skipped. -/
def zipLoop (st : Stats) : List (List String × FSEntry) → WriteResult
  | [] => ⟨st, [], []⟩
  | (p, e) :: rest =>
    match e with
    | .file sz =>
      let r := zipLoop ⟨st.files + 1, st.size + sz⟩ rest
      ⟨r.stats, ("Adding: " ++ joinPath p) :: r.msgs, (p, sz) :: r.entries⟩
    | .dir _ => zipLoop st rest

/-- `CompressionEngine._compress_zip`: a single regular file is written
under its bare name; a directory is walked recursively. -/
def compress_zip (sourceName : String) (source : FSEntry) (st : Stats) : WriteResult :=
  match source with
  | .file sz => ⟨⟨1, sz⟩, ["Added: " ++ sourceName], [([sourceName], sz)]⟩
  | .dir _ => zipLoop st (dirChildren [sourceName] source)

/-- The `mode_map.get(compression, 'w')` lookup of `_compress_tar`. -/
def tarModeOf (compression : String) : String :=
  if compression == "gz" then "w:gz"
  else if compression == "bz2" then "w:bz2"
  else if compression == "xz" then "w:xz"
  else "w"

/-- The per-file loop of `_compress_tar`, identical in structure to the
ZIP loop. -/
def tarLoop (st : Stats) : List (List String × FSEntry) → WriteResult
  | [] => ⟨st, [], []⟩
  | (p, e) :: rest =>
    match e with
    | .file sz =>
      let r := tarLoop ⟨st.files + 1, st.size + sz⟩ rest
      ⟨r.stats, ("Adding: " ++ joinPath p) :: r.msgs, (p, sz) :: r.entries⟩
    | .dir _ => tarLoop st rest

/-- `CompressionEngine._compress_tar`: computes the `tarfile` mode string
from the compression flavour, then writes the source like the ZIP writer. -/
def compress_tar (sourceName : String) (source : FSEntry) (compression : String)
    (st : Stats) : String × WriteResult :=
  let mode := tarModeOf compression
  (mode,
    match source with
    | .file sz => ⟨⟨1, sz⟩, ["Added: " ++ sourceName], [([sourceName], sz)]⟩
    | .dir _ => tarLoop st (dirChildren [sourceName] source))

/-- The per-file loop of `_compress_7z`, identical in structure to the
ZIP loop. -/
def szLoop (st : Stats) : List (List String × FSEntry) → WriteResult
  | [] => ⟨st, [], []⟩
  | (p, e) :: rest =>
    match e with
    | .file sz =>
      let r := szLoop ⟨st.files + 1, st.size + sz⟩ rest
      ⟨r.stats, ("Adding: " ++ joinPath p) :: r.msgs, (p, sz) :: r.entries⟩
    | .dir _ => szLoop st rest

/-- `CompressionEngine._compress_7z`: raises `ImportError` when py7zr is
missing, otherwise writes the source like the ZIP writer. -/
def compress_7z (has7z : Bool) (sourceName : String) (source : FSEntry)
    (st : Stats) : Except String WriteResult :=
  if !has7z then .error "py7zr not installed. Install with: pip install py7zr"
  else .ok (match source with
    | .file sz => ⟨⟨1, sz⟩, ["Added: " ++ sourceName], [([sourceName], sz)]⟩
    | .dir _ => szLoop st (dirChildren [sourceName] source))

/-- The exceptions a compress or decompress run can surface: the first
three are raised by the application's own code, `osError` by the OS layer
during `mkdir`, and `libError` stands for an exception raised inside a
third-party archive library. The payload is the exception's message,
`str(e)`. -/
inductive AppError where
  | fileNotFound (msg : String)
  | valueError (msg : String)
  | importError (msg : String)
  | osError (msg : String)
  | libError (msg : String)
deriving DecidableEq

/-- `str(e)` of a surfaced exception. -/
def errMsg : AppError → String
  | .fileNotFound m => m
  | .valueError m => m
  | .importError m => m
  | .osError m => m
  | .libError m => m

/-- Which writer `compress` dispatched to: `_compress_zip`,
`_compress_tar` with a compression flavour, or `_compress_7z`. -/
inductive Dispatch where
  | zipW
  | tarW (compression : String)
  | szW
deriving DecidableEq

/-- The dictionary `compress` returns on success. -/
structure CompressOk where
  files : Nat
  original_size : Nat
  compressed_size : Nat
  ratio : ℚ
deriving DecidableEq

/-- Lines 70-78 of `compress`: read the output file's size and build the
result dictionary, guarding the ratio against a zero original size. -/
def finishCompress (stF : Stats) (outSize : Nat) : CompressOk :=
  { files := stF.files
    original_size := stF.size
    compressed_size := outSize
    ratio := if stF.size > 0 then (1 - (outSize : ℚ) / (stF.size : ℚ)) * 100 else 0 }

/-- Everything observable about one `compress` call: the progress messages
sent to the callback, which writer ran (if any), the `tarfile` mode string
when the tar writer ran, the entries of the archive that was written (none
when no archive was written), the engine statistics left behind, and the
returned dictionary or raised exception. -/
structure CompressOut where
  msgs : List String
  dispatched : Option Dispatch
  tarMode : Option String
  archive : Option (List (List String × Nat))
  stats : Stats
  result : Except AppError CompressOk

/-- `CompressionEngine.compress`: reset the statistics, check the source
exists, announce the format, dispatch on the exact format string, and
build the result dictionary. `outSize` abstracts the size the third-party
writer's output file ends up with; `wlib` abstracts the exceptions the
third-party writer or the OS can raise while opening, writing or
stat-ing the output file (a PermissionError from `zipfile.ZipFile(...)`,
say) — when it errors, the write is modelled as failing at open, before
any entry is added; `st0` is the statistics state left by previous engine
operations. -/
def compress (has7z : Bool) (wlib : Except String Unit) (fs : FSEntry)
    (sourcePath : List String) (outSize : Nat) (format_type : String)
    (st0 : Stats) : CompressOut :=
  let stR : Stats := ⟨0, 0⟩
  match resolve sourcePath fs with
  | none =>
    ⟨[], none, none, none, stR,
      .error (.fileNotFound ("Source path not found: " ++ joinPath sourcePath))⟩
  | some source =>
    let startMsg := "Starting compression to " ++ pyUpper format_type ++ "..."
    let name := lastName sourcePath
    if format_type == "zip" then
      match wlib with
      | .error m => ⟨[startMsg], some .zipW, none, none, stR, .error (.libError m)⟩
      | .ok _ =>
        let r := compress_zip name source stR
        ⟨startMsg :: r.msgs, some .zipW, none, some r.entries, r.stats,
          .ok (finishCompress r.stats outSize)⟩
    else if format_type == "tar.gz" || format_type == "tgz" then
      match wlib with
      | .error m => ⟨[startMsg], some (.tarW "gz"), none, none, stR, .error (.libError m)⟩
      | .ok _ =>
        let r := compress_tar name source "gz" stR
        ⟨startMsg :: r.2.msgs, some (.tarW "gz"), some r.1, some r.2.entries, r.2.stats,
          .ok (finishCompress r.2.stats outSize)⟩
    else if format_type == "tar.bz2" then
      match wlib with
      | .error m => ⟨[startMsg], some (.tarW "bz2"), none, none, stR, .error (.libError m)⟩
      | .ok _ =>
        let r := compress_tar name source "bz2" stR
        ⟨startMsg :: r.2.msgs, some (.tarW "bz2"), some r.1, some r.2.entries, r.2.stats,
          .ok (finishCompress r.2.stats outSize)⟩
    else if format_type == "tar.xz" then
      match wlib with
      | .error m => ⟨[startMsg], some (.tarW "xz"), none, none, stR, .error (.libError m)⟩
      | .ok _ =>
        let r := compress_tar name source "xz" stR
        ⟨startMsg :: r.2.msgs, some (.tarW "xz"), some r.1, some r.2.entries, r.2.stats,
          .ok (finishCompress r.2.stats outSize)⟩
    else if format_type == "7z" then
      match compress_7z has7z name source stR with
      | .error m => ⟨[startMsg], some .szW, none, none, stR, .error (.importError m)⟩
      | .ok r =>
        match wlib with
        | .error m => ⟨[startMsg], some .szW, none, none, stR, .error (.libError m)⟩
        | .ok _ =>
          ⟨startMsg :: r.msgs, some .szW, none, some r.entries, r.stats,
            .ok (finishCompress r.stats outSize)⟩
    else
      ⟨[startMsg], none, none, none, stR,
        .error (.valueError ("Unsupported compression format: " ++ format_type))⟩

/-- Which extractor `decompress` dispatched to. -/
inductive DCodec where
  | zipX
  | rarX
  | szX
  | tarX
deriving DecidableEq

/-- The dictionary `decompress` returns on success. -/
structure DecompressOk where
  files : Nat
  output_path : String
deriving DecidableEq

/-- Everything observable about one `decompress` call: the filesystem after
the call (output-directory creation is its only modelled effect; the
extracted contents belong to the third-party library), the progress
messages, which extractor ran (if any), the statistics left behind, and the
returned dictionary or raised exception. -/
structure DecompressOut where
  fs : FSEntry
  msgs : List String
  dispatched : Option DCodec
  stats : Stats
  result : Except AppError DecompressOk

/-- The body shared by the four `_decompress_*` helpers once the archive is
readable: the member list sets the file count and one progress message is
emitted per member. -/
def extractWith (lib : DCodec → Except String (List String)) (codec : DCodec)
    (fs2 : FSEntry) (msgs0 : List String) (outDir : List String) : DecompressOut :=
  match lib codec with
  | .error m => ⟨fs2, msgs0, some codec, ⟨0, 0⟩, .error (.libError m)⟩
  | .ok members =>
    ⟨fs2, msgs0 ++ members.map (fun m => "Extracting: " ++ m), some codec,
      ⟨members.length, 0⟩, .ok ⟨members.length, joinPath outDir⟩⟩

/-- Line 88-89 of `decompress`: the output directory defaults to the
archive's stem (a relative path, resolved in the current working
directory). -/
def outDirOf (archivePath : List String) (output_dir : Option (List String)) : List String :=
  match output_dir with
  | some d => d
  | none => [pyStem (lastName archivePath)]

/-- Line 96 of `decompress`: the lower-cased concatenation of all of the
archive name's suffixes. -/
def extOf (name : String) : String :=
  pyLower (String.join (pySuffixes name))

/-- `CompressionEngine.decompress`: reset the statistics, check the archive
exists, default the output directory to the archive's stem, create the
output directory, then dispatch on the lower-cased concatenation of all of
the archive name's suffixes. `lib` abstracts the third-party reader: the
member list of the archive, or the library's exception. -/
def decompress (has7z hasRar : Bool) (lib : DCodec → Except String (List String))
    (fs : FSEntry) (archivePath : List String) (output_dir : Option (List String))
    (st0 : Stats) : DecompressOut :=
  let stR : Stats := ⟨0, 0⟩
  match resolve archivePath fs with
  | none =>
    ⟨fs, [], none, stR,
      .error (.fileNotFound ("Archive not found: " ++ joinPath archivePath))⟩
  | some _ =>
    let name := lastName archivePath
    let outDir := outDirOf archivePath output_dir
    match mkdirParents outDir fs with
    | .error m => ⟨fs, [], none, stR, .error (.osError m)⟩
    | .ok fs2 =>
      let msgs0 := ["Starting extraction..."]
      let ext := extOf name
      if ext == ".zip" then
        extractWith lib .zipX fs2 msgs0 outDir
      else if ext == ".rar" then
        if !hasRar then
          ⟨fs2, msgs0, some .rarX, stR,
            .error (.importError "rarfile not installed. Install with: pip install rarfile")⟩
        else extractWith lib .rarX fs2 msgs0 outDir
      else if ext == ".7z" then
        if !has7z then
          ⟨fs2, msgs0, some .szX, stR,
            .error (.importError "py7zr not installed. Install with: pip install py7zr")⟩
        else extractWith lib .szX fs2 msgs0 outDir
      else if ext == ".tar.gz" || ext == ".tgz" || ext == ".tar.bz2"
          || ext == ".tar.xz" || ext == ".tar" then
        extractWith lib .tarX fs2 msgs0 outDir
      else
        ⟨fs2, msgs0, none, stR,
          .error (.valueError ("Unsupported archive format: " ++ ext))⟩

/-- `YUSRLinRZGUI.compress_files` / `extract_archive` error path: the
caught exception is shown to the user as `messagebox.showerror("Error",
str(e))` — title and the exception's message, verbatim. -/
def guiErrorPopup (e : AppError) : String × String :=
  ("Error", errMsg e)

/-- The GUI events that affect how many background tasks are running: the
two spawn sites (`compress_files` and `extract_archive`, each of which
unconditionally starts a new daemon thread) and the termination of one
running task. -/
inductive GuiEvent where
  | startCompress
  | startExtract
  | finishTask
deriving DecidableEq

/-- Effect of one GUI event on the number of running background tasks.
Both spawn sites run `threading.Thread(target=task, daemon=True).start()`
with no check of any prior task. -/
def guiStep (running : Nat) : GuiEvent → Nat
  | .startCompress => running + 1
  | .startExtract => running + 1
  | .finishTask => running - 1

/-- Number of running background tasks after a sequence of GUI events. -/
def runEvents (running : Nat) : List GuiEvent → Nat
  | [] => running
  | ev :: rest => runEvents (guiStep running ev) rest

/-- Spec-side dispatch table for archive creation: the five supported
format strings and the writer each one names. -/
def fmtTable (format_type : String) : Option Dispatch :=
  if format_type == "zip" then some .zipW
  else if format_type == "tar.gz" || format_type == "tgz" then some (.tarW "gz")
  else if format_type == "tar.bz2" then some (.tarW "bz2")
  else if format_type == "tar.xz" then some (.tarW "xz")
  else if format_type == "7z" then some .szW
  else none

/-- Spec-side dispatch table for extraction: the supported extension
strings and the extractor each one names. -/
def extTable (ext : String) : Option DCodec :=
  if ext == ".zip" then some .zipX
  else if ext == ".rar" then some .rarX
  else if ext == ".7z" then some .szX
  else if ext == ".tar.gz" || ext == ".tgz" || ext == ".tar.bz2"
      || ext == ".tar.xz" || ext == ".tar" then some .tarX
  else none

/-- Spec-side description of what a writer archives: the source file alone
under its bare name, or every regular file of the recursive walk under its
path relative to the source's parent. -/
def archiveFiles (sourceName : String) (source : FSEntry) : List (List String × Nat) :=
  match source with
  | .file sz => [([sourceName], sz)]
  | .dir _ => filesOf (dirChildren [sourceName] source)

/-- Total byte size of a list of archive entries. -/
def sumSizes (l : List (List String × Nat)) : Nat :=
  (l.map (fun e => e.2)).sum

/-- No two siblings share a name in this child list. -/
def nodupKeys : List (String × FSEntry) → Bool
  | [] => true
  | c :: rest => !(rest.any (fun c2 => c2.1 == c.1)) && nodupKeys rest

mutual

/-- A well-formed node: sibling names are distinct throughout, as they are
in a real directory tree. -/
def wfEntry : FSEntry → Bool
  | .file _ => true
  | .dir cs => nodupKeys cs && wfChildren cs

def wfChildren : List (String × FSEntry) → Bool
  | [] => true
  | c :: rest => wfEntry c.2 && wfChildren rest

end

/-- The progress message a writer emits for one archived file: `Added:`
for a single-file source, `Adding:` inside a directory walk. -/
def addMsg (source : FSEntry) (e : List String × Nat) : String :=
  match source with
  | .file _ => "Added: " ++ joinPath e.1
  | .dir _ => "Adding: " ++ joinPath e.1

lemma joinPath_single (n : String) : joinPath [n] = n := rfl

lemma zipLoop_spec (l : List (List String × FSEntry)) : ∀ st : Stats,
    zipLoop st l =
      ⟨⟨st.files + (filesOf l).length, st.size + sumSizes (filesOf l)⟩,
        (filesOf l).map (fun e => "Adding: " ++ joinPath e.1), filesOf l⟩ := by
  induction l with
  | nil => intro st; simp [zipLoop, filesOf, sumSizes]
  | cons c rest ih =>
    intro st
    obtain ⟨p, e⟩ := c
    cases e with
    | file sz =>
      simp only [zipLoop, ih]
      simp only [filesOf, List.filterMap_cons, sumSizes, List.map_cons, List.length_cons,
        List.sum_cons, WriteResult.mk.injEq, Stats.mk.injEq]
      refine ⟨⟨by omega, by omega⟩, by trivial, by trivial⟩
    | dir cs =>
      simp only [zipLoop, ih, filesOf, List.filterMap_cons]

lemma tarLoop_eq_zipLoop (l : List (List String × FSEntry)) : ∀ st : Stats,
    tarLoop st l = zipLoop st l := by
  induction l with
  | nil => intro st; rfl
  | cons c rest ih =>
    intro st
    obtain ⟨p, e⟩ := c
    cases e with
    | file sz => simp only [tarLoop, zipLoop, ih]
    | dir cs => simp only [tarLoop, zipLoop, ih]

lemma szLoop_eq_zipLoop (l : List (List String × FSEntry)) : ∀ st : Stats,
    szLoop st l = zipLoop st l := by
  induction l with
  | nil => intro st; rfl
  | cons c rest ih =>
    intro st
    obtain ⟨p, e⟩ := c
    cases e with
    | file sz => simp only [szLoop, zipLoop, ih]
    | dir cs => simp only [szLoop, zipLoop, ih]

/-- The ZIP writer started from freshly reset statistics: its statistics
count exactly the archived files, its messages name them in order, and its
entries are exactly the walk's regular files. -/
lemma compress_zip_spec (name : String) (source : FSEntry) :
    compress_zip name source ⟨0, 0⟩ =
      ⟨⟨(archiveFiles name source).length, sumSizes (archiveFiles name source)⟩,
        (archiveFiles name source).map (addMsg source), archiveFiles name source⟩ := by
  cases source with
  | file sz => simp [compress_zip, archiveFiles, sumSizes, addMsg, joinPath_single]
  | dir cs =>
    simp [compress_zip, archiveFiles, zipLoop_spec, addMsg]

/-- The tar writer from reset statistics, in terms of the archived files. -/
lemma compress_tar_spec (name : String) (source : FSEntry) (comp : String) :
    compress_tar name source comp ⟨0, 0⟩ =
      (tarModeOf comp,
        ⟨⟨(archiveFiles name source).length, sumSizes (archiveFiles name source)⟩,
          (archiveFiles name source).map (addMsg source), archiveFiles name source⟩) := by
  cases source with
  | file sz => simp [compress_tar, archiveFiles, sumSizes, addMsg, joinPath_single]
  | dir cs => simp [compress_tar, archiveFiles, tarLoop_eq_zipLoop, zipLoop_spec, addMsg]

/-- The 7z writer from reset statistics when py7zr is available. -/
lemma compress_7z_spec (name : String) (source : FSEntry) :
    compress_7z true name source ⟨0, 0⟩ =
      .ok ⟨⟨(archiveFiles name source).length, sumSizes (archiveFiles name source)⟩,
        (archiveFiles name source).map (addMsg source), archiveFiles name source⟩ := by
  cases source with
  | file sz => simp [compress_7z, archiveFiles, sumSizes, addMsg, joinPath_single]
  | dir cs => simp [compress_7z, archiveFiles, szLoop_eq_zipLoop, zipLoop_spec, addMsg]

/-- A successful `compress` implies the source resolved. -/
lemma compress_resolve_of_ok {has7z : Bool} {wlib : Except String Unit}
    {fs : FSEntry} {sp : List String}
    {oz : Nat} {fmt : String} {st0 : Stats} {r : CompressOk}
    (hr : (compress has7z wlib fs sp oz fmt st0).result = .ok r) :
    ∃ src, resolve sp fs = some src := by
  unfold compress at hr
  cases h : resolve sp fs with
  | none => simp only [h] at hr; simp at hr
  | some src => exact ⟨src, rfl⟩

/-- On success, the dictionary `compress` returns is `finishCompress` of
the walk's statistics, and the messages are the start announcement followed
by one message per archived file, in walk order. -/
lemma compress_ok_full {has7z : Bool} {wlib : Except String Unit}
    {fs : FSEntry} {sp : List String} {oz : Nat}
    {fmt : String} {st0 : Stats} {src : FSEntry} {r : CompressOk}
    (hres : resolve sp fs = some src)
    (hr : (compress has7z wlib fs sp oz fmt st0).result = .ok r) :
    r = finishCompress ⟨(archiveFiles (lastName sp) src).length,
          sumSizes (archiveFiles (lastName sp) src)⟩ oz ∧
    (compress has7z wlib fs sp oz fmt st0).msgs =
      ("Starting compression to " ++ pyUpper fmt ++ "...") ::
        (archiveFiles (lastName sp) src).map (addMsg src) := by
  cases wlib with
  | error m =>
    exfalso
    unfold compress at hr
    simp only [hres] at hr
    split_ifs at hr
    cases hcz : compress_7z has7z (lastName sp) src ⟨0, 0⟩ with
    | error m2 => simp only [hcz] at hr; simp at hr
    | ok w => simp only [hcz] at hr; simp at hr
  | ok u =>
    unfold compress at hr ⊢
    simp only [hres] at hr ⊢
    split_ifs at hr ⊢ with h1 h2 h3 h4 h5
    · simp only [compress_zip_spec] at hr ⊢
      exact ⟨by simpa using hr.symm, by trivial⟩
    · simp only [compress_tar_spec] at hr ⊢
      exact ⟨by simpa using hr.symm, by trivial⟩
    · simp only [compress_tar_spec] at hr ⊢
      exact ⟨by simpa using hr.symm, by trivial⟩
    · simp only [compress_tar_spec] at hr ⊢
      exact ⟨by simpa using hr.symm, by trivial⟩
    · cases h7 : has7z with
      | false => simp [h7, compress_7z] at hr
      | true =>
        simp only [h7, compress_7z_spec] at hr ⊢
        exact ⟨by simpa using hr.symm, by trivial⟩

lemma filesOf_append (a b : List (List String × FSEntry)) :
    filesOf (a ++ b) = filesOf a ++ filesOf b := by
  simp [filesOf, List.filterMap_append]

lemma mem_filesOf {l : List (List String × FSEntry)} {arc : List String} {sz : Nat} :
    (arc, sz) ∈ filesOf l ↔ ∃ b ∈ l, b.1 = arc ∧ b.2 = FSEntry.file sz := by
  simp only [filesOf, List.mem_filterMap]
  constructor
  · rintro ⟨b, hb, hcond⟩
    refine ⟨b, hb, ?_⟩
    obtain ⟨q, e⟩ := b
    cases e with
    | file s => simp_all
    | dir cs => simp_all
  · rintro ⟨b, hb, h1, h2⟩
    refine ⟨b, hb, ?_⟩
    obtain ⟨q, e⟩ := b
    cases e with
    | file s => simp_all
    | dir cs => simp_all

lemma mem_subdirsWalk {x : List String × FSEntry} {p : List String} :
    ∀ {cs : List (String × FSEntry)},
      x ∈ subdirsWalk p cs ↔ ∃ c ∈ cs, x ∈ dirChildren (p ++ [c.1]) c.2 := by
  intro cs
  induction cs with
  | nil => simp [subdirsWalk]
  | cons c rest ih => simp [subdirsWalk, List.mem_append, ih]

lemma find?_nodupKeys {cs : List (String × FSEntry)} {n : String} {e : FSEntry}
    (hnd : nodupKeys cs = true) (hm : (n, e) ∈ cs) :
    cs.find? (fun c => c.1 == n) = some (n, e) := by
  induction cs with
  | nil => simp at hm
  | cons c rest ih =>
    simp only [nodupKeys, Bool.and_eq_true] at hnd
    obtain ⟨hna, hrest⟩ := hnd
    rcases List.mem_cons.mp hm with h | h
    · subst h
      simp [List.find?]
    · have hne : (c.1 == n) ≠ true := by
        intro hbeq
        have : rest.any (fun c2 => c2.1 == c.1) = true := by
          refine List.any_eq_true.mpr ⟨(n, e), h, ?_⟩
          simp only [beq_iff_eq] at hbeq ⊢
          exact hbeq.symm
        simp [this] at hna
      simp only [List.find?, Bool.not_eq_true] at hne ⊢
      simp [hne, ih hrest h]

lemma wfChildren_mem {cs : List (String × FSEntry)} (h : wfChildren cs = true)
    {c : String × FSEntry} (hm : c ∈ cs) : wfEntry c.2 = true := by
  induction cs with
  | nil => simp at hm
  | cons b rest ih =>
    simp only [wfChildren, Bool.and_eq_true] at h
    rcases List.mem_cons.mp hm with h2 | h2
    · subst h2; exact h.1
    · exact ih h.2 h2

lemma resolve_nil (e : FSEntry) : resolve [] e = some e := rfl

lemma resolve_cons_dir (n : String) (rest : List String) (cs : List (String × FSEntry)) :
    resolve (n :: rest) (.dir cs) =
      match cs.find? (fun c => c.1 == n) with
      | some c => resolve rest c.2
      | none => none := rfl

lemma dirChildren_dir (p : List String) (cs : List (String × FSEntry)) :
    dirChildren p (.dir cs) = (cs.map (fun c => (p ++ [c.1], c.2))) ++ subdirsWalk p cs := by
  rw [dirChildren]

lemma sizeOf_snd_lt {cs : List (String × FSEntry)} {c : String × FSEntry} (h : c ∈ cs) :
    sizeOf c.2 < sizeOf (FSEntry.dir cs) := by
  have h1 := List.sizeOf_lt_of_mem h
  obtain ⟨n, e⟩ := c
  simp only [FSEntry.dir.sizeOf_spec]
  simp only [Prod.mk.sizeOf_spec] at h1
  omega

/-- A pair (archive path, size) appears in the files of the recursive walk
of a well-formed node exactly when a regular file of that size sits at that
path (strictly below the node). -/
lemma mem_walk_iff : ∀ (k : Nat) (e : FSEntry), sizeOf e ≤ k → wfEntry e = true →
    ∀ (p arc : List String) (sz : Nat),
      ((arc, sz) ∈ filesOf (dirChildren p e) ↔
        ∃ rel, rel ≠ [] ∧ arc = p ++ rel ∧ resolve rel e = some (.file sz)) := by
  intro k
  induction k with
  | zero =>
    intro e hsz
    exfalso
    cases e with
    | file s => simp [FSEntry.file.sizeOf_spec] at hsz
    | dir cs => simp [FSEntry.dir.sizeOf_spec] at hsz
  | succ k ih =>
    intro e hsz hwf p arc sz
    cases e with
    | file s =>
      constructor
      · intro h
        simp [dirChildren, filesOf] at h
      · rintro ⟨rel, hne, harc, hres⟩
        exfalso
        cases rel with
        | nil => exact hne rfl
        | cons a l => simp [resolve] at hres
    | dir cs =>
      have hwf2 : nodupKeys cs = true ∧ wfChildren cs = true := by
        simpa [wfEntry, Bool.and_eq_true] using hwf
      obtain ⟨hnd, hch⟩ := hwf2
      constructor
      · intro h
        rw [dirChildren_dir, filesOf_append, List.mem_append] at h
        rcases h with h | h
        · rw [mem_filesOf] at h
          obtain ⟨b, hb, hb1, hb2⟩ := h
          rw [List.mem_map] at hb
          obtain ⟨c, hc, hgc⟩ := hb
          have hcfile : c.2 = FSEntry.file sz := by rw [← hgc] at hb2; exact hb2
          have harc : arc = p ++ [c.1] := by rw [← hb1, ← hgc]
          have hmem2 : (c.1, FSEntry.file sz) ∈ cs := by
            rw [← hcfile, Prod.mk.eta]
            exact hc
          refine ⟨[c.1], by simp, harc, ?_⟩
          rw [resolve_cons_dir, find?_nodupKeys hnd hmem2]
          rfl
        · rw [mem_filesOf] at h
          obtain ⟨b, hb, hb1, hb2⟩ := h
          rw [mem_subdirsWalk] at hb
          obtain ⟨c, hc, hbc⟩ := hb
          have hmemc : (arc, sz) ∈ filesOf (dirChildren (p ++ [c.1]) c.2) :=
            mem_filesOf.mpr ⟨b, hbc, hb1, hb2⟩
          have hszc : sizeOf c.2 ≤ k := by
            have := sizeOf_snd_lt hc
            omega
          have hwfc := wfChildren_mem hch hc
          obtain ⟨rel, hrne, hra, hrr⟩ := (ih c.2 hszc hwfc (p ++ [c.1]) arc sz).mp hmemc
          have hmem2 : (c.1, c.2) ∈ cs := by rw [Prod.mk.eta]; exact hc
          refine ⟨c.1 :: rel, by simp, ?_, ?_⟩
          · rw [hra]; simp
          · rw [resolve_cons_dir, find?_nodupKeys hnd hmem2]
            exact hrr
      · rintro ⟨rel, hne, harc, hres⟩
        cases rel with
        | nil => exact absurd rfl hne
        | cons n rest =>
          rw [resolve_cons_dir] at hres
          cases hf : List.find? (fun c => c.1 == n) cs with
          | none => rw [hf] at hres; simp at hres
          | some c =>
            rw [hf] at hres
            have hcmem : c ∈ cs := List.mem_of_find?_eq_some hf
            have hckey : c.1 = n := by
              have := List.find?_some hf
              simpa [beq_iff_eq] using this
            rw [dirChildren_dir, filesOf_append, List.mem_append]
            cases rest with
            | nil =>
              left
              have hcfile : c.2 = FSEntry.file sz := by
                simpa [resolve_nil] using hres
              rw [mem_filesOf]
              refine ⟨(p ++ [c.1], c.2), List.mem_map.mpr ⟨c, hcmem, rfl⟩, ?_, hcfile⟩
              simp [harc, hckey]
            | cons b l =>
              right
              have hszc : sizeOf c.2 ≤ k := by
                have := sizeOf_snd_lt hcmem
                omega
              have hwfc := wfChildren_mem hch hcmem
              have hmemc : (arc, sz) ∈ filesOf (dirChildren (p ++ [c.1]) c.2) := by
                rw [ih c.2 hszc hwfc (p ++ [c.1]) arc sz]
                refine ⟨b :: l, by simp, ?_, hres⟩
                simp [harc, hckey]
              rw [mem_filesOf] at hmemc ⊢
              obtain ⟨bb, hbb, h1, h2⟩ := hmemc
              exact ⟨bb, mem_subdirsWalk.mpr ⟨c, hcmem, hbb⟩, h1, h2⟩

lemma extractWith_dispatched (lib : DCodec → Except String (List String))
    (codec : DCodec) (fs2 : FSEntry) (m : List String) (o : List String) :
    (extractWith lib codec fs2 m o).dispatched = some codec := by
  unfold extractWith
  cases lib codec <;> rfl

lemma runEvents_append (a b : List GuiEvent) : ∀ n : Nat,
    runEvents n (a ++ b) = runEvents (runEvents n a) b := by
  induction a with
  | nil => intro n; rfl
  | cons ev rest ih => intro n; simp [runEvents, ih]

lemma runEvents_replicate (n : Nat) : ∀ k : Nat,
    runEvents k (List.replicate n GuiEvent.startCompress) = k + n := by
  induction n with
  | zero => intro k; rfl
  | succ m ih =>
    intro k
    simp only [List.replicate, runEvents, guiStep, ih]
    omega

lemma find?_cons_pos {b : String × FSEntry} {rest : List (String × FSEntry)}
    {n : String} (h : (b.1 == n) = true) :
    ((b :: rest).find? (fun c => c.1 == n)) = some b := by
  simp [List.find?, h]

lemma find?_cons_neg {b : String × FSEntry} {rest : List (String × FSEntry)}
    {n : String} (h : (b.1 == n) = false) :
    ((b :: rest).find? (fun c => c.1 == n)) = rest.find? (fun c => c.1 == n) := by
  simp [List.find?, h]

lemma find?_map_replace {n : String} (e2 : FSEntry) :
    ∀ {cs : List (String × FSEntry)} {c : String × FSEntry},
    cs.find? (fun c => c.1 == n) = some c →
    (cs.map (fun c2 => if c2.1 == n then (n, e2) else c2)).find? (fun c => c.1 == n)
      = some (n, e2) := by
  intro cs
  induction cs with
  | nil => intro c h; simp at h
  | cons b rest ih =>
    intro c h
    by_cases hb : (b.1 == n) = true
    · have hhead : (if b.1 == n then (n, e2) else b) = (n, e2) := by simp [hb]
      simp only [List.map_cons, hhead]
      exact find?_cons_pos (by simp)
    · have hbf : (b.1 == n) = false := by simpa using hb
      have hhead : (if b.1 == n then (n, e2) else b) = b := by simp [hbf]
      simp only [List.map_cons, hhead]
      rw [find?_cons_neg hbf] at h
      rw [find?_cons_neg hbf]
      exact ih h

lemma find?_append_none {l1 l2 : List (String × FSEntry)} {n : String}
    (h : l1.find? (fun c => c.1 == n) = none) :
    ((l1 ++ l2).find? (fun c => c.1 == n)) = l2.find? (fun c => c.1 == n) := by
  induction l1 with
  | nil => rfl
  | cons b rest ih =>
    by_cases hb : (b.1 == n) = true
    · rw [find?_cons_pos hb] at h
      simp at h
    · have hbf : (b.1 == n) = false := by simpa using hb
      rw [find?_cons_neg hbf] at h
      simp only [List.cons_append]
      rw [find?_cons_neg hbf]
      exact ih h

/-- After a successful `mkdir(parents=True, exist_ok=True)`, the requested
path resolves to a directory. -/
lemma mkdirParents_resolve : ∀ (p : List String) (fs fs2 : FSEntry),
    mkdirParents p fs = .ok fs2 → ∃ cs, resolve p fs2 = some (.dir cs) := by
  intro p
  induction p with
  | nil =>
    intro fs fs2 h
    cases fs with
    | file s => simp [mkdirParents] at h
    | dir cs =>
      simp only [mkdirParents, Except.ok.injEq] at h
      exact ⟨cs, by rw [← h]; exact resolve_nil _⟩
  | cons n rest ih =>
    intro fs fs2 h
    cases fs with
    | file s => simp [mkdirParents] at h
    | dir cs =>
      rw [mkdirParents] at h
      cases hf : cs.find? (fun c => c.1 == n) with
      | some c =>
        simp only [hf] at h
        cases hm : mkdirParents rest c.2 with
        | error m => simp [hm] at h
        | ok e2 =>
          simp only [hm, Except.ok.injEq] at h
          obtain ⟨cs2, hres2⟩ := ih c.2 e2 hm
          refine ⟨cs2, ?_⟩
          rw [← h, resolve_cons_dir, find?_map_replace e2 hf]
          exact hres2
      | none =>
        simp only [hf] at h
        cases hm : mkdirParents rest (.dir []) with
        | error m => simp [hm] at h
        | ok e2 =>
          simp only [hm, Except.ok.injEq] at h
          obtain ⟨cs2, hres2⟩ := ih (.dir []) e2 hm
          refine ⟨cs2, ?_⟩
          rw [← h, resolve_cons_dir, find?_append_none hf]
          rw [find?_cons_pos (by simp)]
          exact hres2

lemma extractWith_error {lib : DCodec → Except String (List String)} {codec : DCodec}
    {fs2 : FSEntry} {m o : List String} {e : AppError}
    (he : (extractWith lib codec fs2 m o).result = .error e) :
    ∃ m2, e = .libError m2 := by
  unfold extractWith at he
  cases hl : lib codec with
  | error m2 =>
    rw [hl] at he
    simp only [Except.error.injEq] at he
    exact ⟨m2, he.symm⟩
  | ok mem =>
    rw [hl] at he
    simp at he

/-- Given an existing archive and a successful mkdir, `decompress`
dispatches exactly as the extension table prescribes, and an extension
outside the table yields the `ValueError` with the filesystem already
holding the freshly ensured output directory. -/
lemma decompress_dispatch_full {has7z hasRar : Bool}
    {lib : DCodec → Except String (List String)} {fs : FSEntry}
    {ap : List String} {od : Option (List String)} {st0 : Stats} {a fs2 : FSEntry}
    (hres : resolve ap fs = some a)
    (hmk : mkdirParents (outDirOf ap od) fs = .ok fs2) :
    (decompress has7z hasRar lib fs ap od st0).dispatched
        = extTable (extOf (lastName ap)) ∧
    (extTable (extOf (lastName ap)) = none →
      (decompress has7z hasRar lib fs ap od st0).result
          = .error (.valueError ("Unsupported archive format: " ++ extOf (lastName ap))) ∧
      (decompress has7z hasRar lib fs ap od st0).fs = fs2) := by
  unfold decompress extTable
  simp only [hres, hmk]
  split_ifs <;> simp [extractWith_dispatched]

/-- Children of the docs directory of the demonstration filesystem. -/
def demoDocsKids : List (String × FSEntry) :=
  [("a.txt", .file 10), ("sub", .dir [("b.txt", .file 20)]), ("c.txt", .file 5)]

/-- The docs directory of the demonstration filesystem. -/
def demoDocs : FSEntry :=
  .dir demoDocsKids

/-- A small concrete filesystem on which the theorems are exercised. -/
def demoFs : FSEntry :=
  .dir [("docs", demoDocs),
        ("one.txt", .file 7),
        ("arch.b.zip", .file 3),
        ("data.tar.gz", .file 4),
        ("out", .dir []),
        ("a", .dir []),
        ("a.xyz", .file 9)]

/-- C1: for every existing source path, `compress` dispatches on the exact
user-chosen format string to exactly one codec — zip to the ZIP writer,
tar.gz or tgz to tar with gzip, tar.bz2 to tar with bzip2, tar.xz to tar
with xz, 7z to the 7-Zip writer, as recorded in the spec-side table
`fmtTable` — and for every other format string it raises `ValueError` and
writes no archive. -/
theorem compress_dispatch_table (has7z : Bool) (wlib : Except String Unit)
    (fs src : FSEntry) (sp : List String)
    (oz : Nat) (fmt : String) (st0 : Stats)
    (h : resolve sp fs = some src) :
    (compress has7z wlib fs sp oz fmt st0).dispatched = fmtTable fmt ∧
    (fmtTable fmt = none →
      (compress has7z wlib fs sp oz fmt st0).result
          = .error (.valueError ("Unsupported compression format: " ++ fmt)) ∧
      (compress has7z wlib fs sp oz fmt st0).archive = none) := by
  unfold compress fmtTable
  simp only [h]
  split_ifs <;> cases has7z <;> cases wlib <;> simp [compress_7z]

/-- Witness for C1 at a concrete input: the unsupported format string rar
on an existing directory source. -/
theorem compress_dispatch_table_witness :
    (compress true (.ok ()) demoFs ["docs"] 12 "rar" ⟨0, 0⟩).dispatched = fmtTable "rar" ∧
    (fmtTable "rar" = none →
      (compress true (.ok ()) demoFs ["docs"] 12 "rar" ⟨0, 0⟩).result
          = .error (.valueError ("Unsupported compression format: " ++ "rar")) ∧
      (compress true (.ok ()) demoFs ["docs"] 12 "rar" ⟨0, 0⟩).archive = none) :=
  compress_dispatch_table true (.ok ()) demoFs demoDocs ["docs"] 12 "rar" ⟨0, 0⟩ rfl

/-- C2 counterexample: the archive name a.b.zip ends in .zip, yet
`decompress` dispatches to no codec and raises `ValueError`, because the
dispatch key is the concatenation of all suffixes (.b.zip), not the final
extension. -/
theorem decompress_suffix_cex :
    ("a.b" ++ ".zip" : String) = "a.b.zip" ∧
    (decompress true true (fun _ => .ok []) demoFs ["arch.b.zip"] (some ["out"]) ⟨0, 0⟩).dispatched
        = none ∧
    (decompress true true (fun _ => .ok []) demoFs ["arch.b.zip"] (some ["out"]) ⟨0, 0⟩).result
        = .error (.valueError "Unsupported archive format: .b.zip") := by
  refine ⟨by decide, rfl, rfl⟩

/-- C2 (amended): for every existing archive file whose output directory
can be created, `decompress` selects the codec from the lower-cased
concatenation of all of the archive name's dot-suffixes — exactly .zip to
ZIP, .rar to RAR, .7z to 7-Zip, and .tar, .tar.gz, .tgz, .tar.bz2, .tar.xz
to tar, as recorded in the spec-side table `extTable` — and any other
suffix concatenation raises `ValueError`. -/
theorem decompress_dispatch_suffixes (has7z hasRar : Bool)
    (lib : DCodec → Except String (List String)) (fs a fs2 : FSEntry)
    (ap : List String) (od : Option (List String)) (st0 : Stats)
    (hres : resolve ap fs = some a)
    (hmk : mkdirParents (outDirOf ap od) fs = .ok fs2) :
    (decompress has7z hasRar lib fs ap od st0).dispatched
        = extTable (extOf (lastName ap)) ∧
    (extTable (extOf (lastName ap)) = none →
      (decompress has7z hasRar lib fs ap od st0).result
          = .error (.valueError ("Unsupported archive format: " ++ extOf (lastName ap)))) := by
  obtain ⟨h1, h2⟩ := decompress_dispatch_full hres hmk
  exact ⟨h1, fun h => (h2 h).1⟩

/-- Witness for the amended C2 at a concrete input: an existing
data.tar.gz archive extracted into an existing output directory. -/
theorem decompress_dispatch_suffixes_witness :
    (decompress true true (fun _ => .ok ["m"]) demoFs ["data.tar.gz"] (some ["out"]) ⟨0, 0⟩).dispatched
        = extTable (extOf (lastName ["data.tar.gz"])) ∧
    (extTable (extOf (lastName ["data.tar.gz"])) = none →
      (decompress true true (fun _ => .ok ["m"]) demoFs ["data.tar.gz"] (some ["out"]) ⟨0, 0⟩).result
          = .error (.valueError ("Unsupported archive format: " ++ extOf (lastName ["data.tar.gz"])))) :=
  decompress_dispatch_suffixes true true (fun _ => .ok ["m"]) demoFs (.file 4) demoFs
    ["data.tar.gz"] (some ["out"]) ⟨0, 0⟩ rfl rfl

/-- Every exception a `compress` run raises is one of the application's
own three — FileNotFoundError, ValueError, ImportError — or an exception
of the third-party writer / OS while writing the output file. -/
lemma compress_error_shape {has7z : Bool} {wlib : Except String Unit}
    {fs : FSEntry} {sp : List String}
    {oz : Nat} {fmt : String} {st0 : Stats} {e : AppError}
    (he : (compress has7z wlib fs sp oz fmt st0).result = .error e) :
    (∃ m, e = .fileNotFound m) ∨ (∃ m, e = .valueError m) ∨ (∃ m, e = .importError m)
      ∨ (∃ m, e = .libError m) := by
  unfold compress at he
  cases h : resolve sp fs with
  | none =>
    simp only [h] at he
    simp only [Except.error.injEq] at he
    exact Or.inl ⟨_, he.symm⟩
  | some src =>
    simp only [h] at he
    cases wlib with
    | error m =>
      split_ifs at he
      · simp only [Except.error.injEq] at he
        exact Or.inr (Or.inr (Or.inr ⟨_, he.symm⟩))
      · simp only [Except.error.injEq] at he
        exact Or.inr (Or.inr (Or.inr ⟨_, he.symm⟩))
      · simp only [Except.error.injEq] at he
        exact Or.inr (Or.inr (Or.inr ⟨_, he.symm⟩))
      · simp only [Except.error.injEq] at he
        exact Or.inr (Or.inr (Or.inr ⟨_, he.symm⟩))
      · cases hcz : compress_7z has7z (lastName sp) src ⟨0, 0⟩ with
        | error m2 =>
          simp only [hcz] at he
          simp only [Except.error.injEq] at he
          exact Or.inr (Or.inr (Or.inl ⟨_, he.symm⟩))
        | ok w =>
          simp only [hcz] at he
          simp only [Except.error.injEq] at he
          exact Or.inr (Or.inr (Or.inr ⟨_, he.symm⟩))
      · simp only [Except.error.injEq] at he
        exact Or.inr (Or.inl ⟨_, he.symm⟩)
    | ok u =>
      split_ifs at he
      · cases h7 : has7z with
        | false =>
          simp only [h7, compress_7z, Bool.not_false, if_true] at he
          simp only [Except.error.injEq] at he
          exact Or.inr (Or.inr (Or.inl ⟨_, he.symm⟩))
        | true =>
          simp only [h7, compress_7z, Bool.not_true, if_false] at he
          simp at he
      · simp only [Except.error.injEq] at he
        exact Or.inr (Or.inl ⟨_, he.symm⟩)

/-- Every exception a `decompress` run raises is an application-raised
FileNotFoundError, ValueError or ImportError, an OS error from creating
the output directory, or a third-party library error. -/
lemma decompress_error_shape {has7z hasRar : Bool}
    {lib : DCodec → Except String (List String)} {fs : FSEntry}
    {ap : List String} {od : Option (List String)} {st0 : Stats} {e : AppError}
    (he : (decompress has7z hasRar lib fs ap od st0).result = .error e) :
    (∃ m, e = .fileNotFound m) ∨ (∃ m, e = .valueError m) ∨ (∃ m, e = .importError m)
      ∨ (∃ m, e = .osError m) ∨ (∃ m, e = .libError m) := by
  unfold decompress at he
  cases h : resolve ap fs with
  | none =>
    simp only [h] at he
    simp only [Except.error.injEq] at he
    exact Or.inl ⟨_, he.symm⟩
  | some a =>
    simp only [h] at he
    cases hmk : mkdirParents (outDirOf ap od) fs with
    | error m =>
      simp only [hmk] at he
      simp only [Except.error.injEq] at he
      exact Or.inr (Or.inr (Or.inr (Or.inl ⟨_, he.symm⟩)))
    | ok fs2 =>
      simp only [hmk] at he
      split_ifs at he
      · obtain ⟨m2, hm2⟩ := extractWith_error he
        exact Or.inr (Or.inr (Or.inr (Or.inr ⟨m2, hm2⟩)))
      · simp only [Except.error.injEq] at he
        exact Or.inr (Or.inr (Or.inl ⟨_, he.symm⟩))
      · obtain ⟨m2, hm2⟩ := extractWith_error he
        exact Or.inr (Or.inr (Or.inr (Or.inr ⟨m2, hm2⟩)))
      · simp only [Except.error.injEq] at he
        exact Or.inr (Or.inr (Or.inl ⟨_, he.symm⟩))
      · obtain ⟨m2, hm2⟩ := extractWith_error he
        exact Or.inr (Or.inr (Or.inr (Or.inr ⟨m2, hm2⟩)))
      · obtain ⟨m2, hm2⟩ := extractWith_error he
        exact Or.inr (Or.inr (Or.inr (Or.inr ⟨m2, hm2⟩)))
      · simp only [Except.error.injEq] at he
        exact Or.inr (Or.inl ⟨_, he.symm⟩)

/-- C3: for every existing source and successful run, the dictionary
returned by `compress` reports files equal to the number of regular files
archived (one for a regular-file source, otherwise the number of regular
files in the recursive walk) and original_size equal to the sum of those
files' byte sizes. -/
theorem compress_stats_counts (has7z : Bool) (wlib : Except String Unit)
    (fs src : FSEntry) (sp : List String)
    (oz : Nat) (fmt : String) (st0 : Stats) (r : CompressOk)
    (hres : resolve sp fs = some src)
    (hr : (compress has7z wlib fs sp oz fmt st0).result = .ok r) :
    r.files = (archiveFiles (lastName sp) src).length ∧
    r.original_size = sumSizes (archiveFiles (lastName sp) src) := by
  obtain ⟨hrfin, -⟩ := compress_ok_full hres hr
  subst hrfin
  exact ⟨rfl, rfl⟩

/-- Witness for C3 at a concrete input: ZIP compression of the demo docs
directory (3 files, 35 bytes). -/
theorem compress_stats_counts_witness :
    (finishCompress ⟨3, 35⟩ 12).files = (archiveFiles (lastName ["docs"]) demoDocs).length ∧
    (finishCompress ⟨3, 35⟩ 12).original_size
        = sumSizes (archiveFiles (lastName ["docs"]) demoDocs) :=
  compress_stats_counts true (.ok ()) demoFs demoDocs ["docs"] 12 "zip" ⟨0, 0⟩
    (finishCompress ⟨3, 35⟩ 12) rfl rfl

/-- C4: for every well-formed source directory, the ZIP, tar and 7z
writers archive identical entries: exactly the regular files strictly
below the directory, each under the archive name given by its path
relative to the source directory's parent (the source's own name followed
by the file's path inside it); directories contribute no entries. -/
theorem writers_walk_exact (name comp : String) (cs : List (String × FSEntry))
    (st1 st2 st3 : Stats) (hwf : wfEntry (.dir cs) = true) :
    (compress_tar name (.dir cs) comp st2).2.entries
        = (compress_zip name (.dir cs) st1).entries ∧
    (compress_7z true name (.dir cs) st3).map WriteResult.entries
        = .ok ((compress_zip name (.dir cs) st1).entries) ∧
    (∀ arc sz, (arc, sz) ∈ (compress_zip name (.dir cs) st1).entries ↔
      ∃ rel, arc = name :: rel ∧ resolve rel (.dir cs) = some (.file sz)) := by
  have hz : (compress_zip name (.dir cs) st1).entries
      = filesOf (dirChildren [name] (.dir cs)) := by
    simp [compress_zip, zipLoop_spec]
  refine ⟨?_, ?_, ?_⟩
  · simp [compress_tar, compress_zip, tarLoop_eq_zipLoop, zipLoop_spec]
  · simp [compress_7z, compress_zip, szLoop_eq_zipLoop, zipLoop_spec, Except.map]
  · intro arc sz
    rw [hz, mem_walk_iff (sizeOf (FSEntry.dir cs)) (.dir cs) le_rfl hwf [name] arc sz]
    constructor
    · rintro ⟨rel, hne, harc, hres2⟩
      exact ⟨rel, harc, hres2⟩
    · rintro ⟨rel, harc, hres2⟩
      refine ⟨rel, ?_, harc, hres2⟩
      rintro rfl
      rw [resolve_nil] at hres2
      simp at hres2

/-- Witness for C4 at a concrete input: the demo docs directory. -/
theorem writers_walk_exact_witness :
    (compress_tar "docs" (.dir demoDocsKids) "gz" ⟨0, 0⟩).2.entries
        = (compress_zip "docs" (.dir demoDocsKids) ⟨0, 0⟩).entries ∧
    (compress_7z true "docs" (.dir demoDocsKids) ⟨0, 0⟩).map WriteResult.entries
        = .ok ((compress_zip "docs" (.dir demoDocsKids) ⟨0, 0⟩).entries) ∧
    (∀ arc sz, (arc, sz) ∈ (compress_zip "docs" (.dir demoDocsKids) ⟨0, 0⟩).entries ↔
      ∃ rel, arc = "docs" :: rel ∧ resolve rel (.dir demoDocsKids) = some (.file sz)) :=
  writers_walk_exact "docs" "gz" demoDocsKids ⟨0, 0⟩ ⟨0, 0⟩ ⟨0, 0⟩ (by decide)

/-- C5 counterexample: compressing an existing source with the format
string rar raises a `ValueError` built by the application itself — an
error that is not an exception of any third-party archive library. -/
theorem surfaced_errors_cex :
    (compress true (.ok ()) demoFs ["docs"] 12 "rar" ⟨0, 0⟩).result
        = .error (.valueError "Unsupported compression format: rar") ∧
    ∀ m, AppError.valueError "Unsupported compression format: rar" ≠ AppError.libError m := by
  refine ⟨rfl, ?_⟩
  intro m h
  cases h

/-- C5 (amended): every error a compress run raises is one of the
application's own FileNotFoundError, ValueError or ImportError, or an
exception of the underlying writer / OS raised while writing the output
file; a decompress run can surface the same application errors, an OS
error from creating the output directory, or a third-party library error;
in every case the GUI shows the exception's message verbatim, with no
classification or recovery. -/
theorem surfaced_errors (has7z hasRar : Bool) (wlib : Except String Unit)
    (lib : DCodec → Except String (List String))
    (fs : FSEntry) (sp ap : List String) (oz : Nat) (fmt : String)
    (od : Option (List String)) (st0 : Stats) :
    (∀ e, (compress has7z wlib fs sp oz fmt st0).result = .error e →
      ((∃ m, e = .fileNotFound m) ∨ (∃ m, e = .valueError m) ∨ (∃ m, e = .importError m)
        ∨ (∃ m, e = .libError m)) ∧
      guiErrorPopup e = ("Error", errMsg e)) ∧
    (∀ e, (decompress has7z hasRar lib fs ap od st0).result = .error e →
      ((∃ m, e = .fileNotFound m) ∨ (∃ m, e = .valueError m) ∨ (∃ m, e = .importError m)
        ∨ (∃ m, e = .osError m) ∨ (∃ m, e = .libError m)) ∧
      guiErrorPopup e = ("Error", errMsg e)) :=
  ⟨fun _ he => ⟨compress_error_shape he, rfl⟩,
   fun _ he => ⟨decompress_error_shape he, rfl⟩⟩

/-- Witness for the amended C5 at a concrete input: the ValueError raised
for the unsupported format rar. -/
theorem surfaced_errors_witness :
    ((∃ m, AppError.valueError "Unsupported compression format: rar" = AppError.fileNotFound m)
      ∨ (∃ m, AppError.valueError "Unsupported compression format: rar" = AppError.valueError m)
      ∨ (∃ m, AppError.valueError "Unsupported compression format: rar" = AppError.importError m)
      ∨ (∃ m, AppError.valueError "Unsupported compression format: rar" = AppError.libError m)) ∧
    guiErrorPopup (AppError.valueError "Unsupported compression format: rar")
        = ("Error", errMsg (AppError.valueError "Unsupported compression format: rar")) :=
  (surfaced_errors true true (.ok ()) (fun _ => .ok []) demoFs ["docs"] ["data.tar.gz"] 12 "rar"
    (some ["out"]) ⟨0, 0⟩).1 (AppError.valueError "Unsupported compression format: rar") rfl

/-- C6 counterexample: two successive user requests (a compression and an
extraction) leave two background tasks running at once — the GUI never
checks whether a task is already running before spawning a thread. -/
theorem gui_single_task_cex :
    ¬ (runEvents 0 [GuiEvent.startCompress, GuiEvent.startExtract] ≤ 1) := by decide

/-- C6 (amended): each compress or extract request unconditionally starts
one more background thread, whatever is already running, so any number of
concurrent background tasks is reachable: after any event sequence a new
request raises the running count by exactly one, and n consecutive
requests from idle leave n tasks running. -/
theorem gui_spawn_unbounded (t : List GuiEvent) (k n : Nat) :
    runEvents k (t ++ [GuiEvent.startCompress]) = runEvents k t + 1 ∧
    runEvents k (t ++ [GuiEvent.startExtract]) = runEvents k t + 1 ∧
    runEvents 0 (List.replicate n GuiEvent.startCompress) = n := by
  refine ⟨?_, ?_, ?_⟩
  · rw [runEvents_append]; rfl
  · rw [runEvents_append]; rfl
  · simpa using runEvents_replicate n 0

/-- C7: for every successful compression run, the progress callback
receives exactly one start message naming the chosen format in upper case,
followed by exactly one message per archived file, naming that file's
archive-relative name, in the order the files are added. -/
theorem compress_progress_messages (has7z : Bool) (wlib : Except String Unit)
    (fs src : FSEntry) (sp : List String)
    (oz : Nat) (fmt : String) (st0 : Stats) (r : CompressOk)
    (hres : resolve sp fs = some src)
    (hr : (compress has7z wlib fs sp oz fmt st0).result = .ok r) :
    (compress has7z wlib fs sp oz fmt st0).msgs =
      ("Starting compression to " ++ pyUpper fmt ++ "...") ::
        (archiveFiles (lastName sp) src).map (addMsg src) ∧
    (∀ e, addMsg src e = "Added: " ++ joinPath e.1
        ∨ addMsg src e = "Adding: " ++ joinPath e.1) := by
  refine ⟨(compress_ok_full hres hr).2, ?_⟩
  intro e
  cases src with
  | file s => exact Or.inl rfl
  | dir cs => exact Or.inr rfl

/-- Witness for C7 at a concrete input: ZIP compression of the demo docs
directory. -/
theorem compress_progress_messages_witness :
    (compress true (.ok ()) demoFs ["docs"] 12 "zip" ⟨0, 0⟩).msgs =
      ("Starting compression to " ++ pyUpper "zip" ++ "...") ::
        (archiveFiles (lastName ["docs"]) demoDocs).map (addMsg demoDocs) ∧
    (∀ e, addMsg demoDocs e = "Added: " ++ joinPath e.1
        ∨ addMsg demoDocs e = "Adding: " ++ joinPath e.1) :=
  compress_progress_messages true (.ok ()) demoFs demoDocs ["docs"] 12 "zip" ⟨0, 0⟩
    (finishCompress ⟨3, 35⟩ 12) rfl rfl

/-- C8: for every successful compress call the returned ratio never arises
from a division by zero: when the accumulated original size is 0 the ratio
is 0, and otherwise it is (1 - compressed_size / original_size) * 100. -/
theorem compress_ratio_guard (has7z : Bool) (wlib : Except String Unit)
    (fs : FSEntry) (sp : List String)
    (oz : Nat) (fmt : String) (st0 : Stats) (r : CompressOk)
    (hr : (compress has7z wlib fs sp oz fmt st0).result = .ok r) :
    (r.original_size = 0 → r.ratio = 0) ∧
    (r.original_size ≠ 0 →
      r.ratio = (1 - (r.compressed_size : ℚ) / (r.original_size : ℚ)) * 100) := by
  obtain ⟨src, hres⟩ := compress_resolve_of_ok hr
  obtain ⟨hrfin, -⟩ := compress_ok_full hres hr
  subst hrfin
  constructor
  · intro h0
    simp only [finishCompress] at h0 ⊢
    rw [if_neg]
    omega
  · intro hne
    simp only [finishCompress] at hne ⊢
    rw [if_pos]
    omega

/-- Witness for C8 at a concrete input: ZIP compression of the demo docs
directory, original size 35, compressed size 12. -/
theorem compress_ratio_guard_witness :
    ((finishCompress ⟨3, 35⟩ 12).original_size = 0 → (finishCompress ⟨3, 35⟩ 12).ratio = 0) ∧
    ((finishCompress ⟨3, 35⟩ 12).original_size ≠ 0 →
      (finishCompress ⟨3, 35⟩ 12).ratio
        = (1 - ((finishCompress ⟨3, 35⟩ 12).compressed_size : ℚ)
            / ((finishCompress ⟨3, 35⟩ 12).original_size : ℚ)) * 100) :=
  compress_ratio_guard true (.ok ()) demoFs ["docs"] 12 "zip" ⟨0, 0⟩ (finishCompress ⟨3, 35⟩ 12) rfl

/-- C9 counterexample: decompressing the existing archive a.xyz (an
unsupported extension) when a directory named a already exists in the
working directory — the ValueError is raised, but the filesystem is left
completely unchanged, contrary to the claim's consequence. -/
theorem mkdir_unchanged_cex :
    (decompress true true (fun _ => .ok []) demoFs ["a.xyz"] none ⟨0, 0⟩).result
        = .error (.valueError "Unsupported archive format: .xyz") ∧
    (decompress true true (fun _ => .ok []) demoFs ["a.xyz"] none ⟨0, 0⟩).fs = demoFs :=
  ⟨rfl, rfl⟩

/-- C9 (amended): for every existing archive whose suffix concatenation is
unsupported and whose output directory can be created, `decompress` raises
the ValueError only after the mkdir call: the resulting filesystem holds
the output directory as a directory (by default named after the archive's
filename with only its final suffix removed, in the working directory);
the filesystem changes exactly when that directory was missing, and is
left unchanged when it already existed. -/
theorem mkdir_before_unsupported (has7z hasRar : Bool)
    (lib : DCodec → Except String (List String)) (fs a fs2 : FSEntry)
    (ap : List String) (od : Option (List String)) (st0 : Stats)
    (hres : resolve ap fs = some a)
    (hmk : mkdirParents (outDirOf ap od) fs = .ok fs2)
    (hext : extTable (extOf (lastName ap)) = none) :
    (decompress has7z hasRar lib fs ap od st0).result
        = .error (.valueError ("Unsupported archive format: " ++ extOf (lastName ap))) ∧
    (decompress has7z hasRar lib fs ap od st0).fs = fs2 ∧
    ∃ cs2, resolve (outDirOf ap od) (decompress has7z hasRar lib fs ap od st0).fs
        = some (.dir cs2) := by
  obtain ⟨-, h2⟩ := decompress_dispatch_full hres hmk
  obtain ⟨hr, hfs⟩ := h2 hext
  refine ⟨hr, hfs, ?_⟩
  rw [hfs]
  exact mkdirParents_resolve _ fs fs2 hmk

/-- Witness for the amended C9 at a concrete input: the archive a.xyz with
the default output directory a, which already exists. -/
theorem mkdir_before_unsupported_witness :
    (decompress true true (fun _ => .ok []) demoFs ["a.xyz"] none ⟨0, 0⟩).result
        = .error (.valueError ("Unsupported archive format: " ++ extOf (lastName ["a.xyz"]))) ∧
    (decompress true true (fun _ => .ok []) demoFs ["a.xyz"] none ⟨0, 0⟩).fs = demoFs ∧
    ∃ cs2, resolve (outDirOf ["a.xyz"] none)
        (decompress true true (fun _ => .ok []) demoFs ["a.xyz"] none ⟨0, 0⟩).fs
        = some (.dir cs2) :=
  mkdir_before_unsupported true true (fun _ => .ok []) demoFs (.file 9) demoFs
    ["a.xyz"] none ⟨0, 0⟩ rfl rfl rfl

/-- C10: both `compress` and `decompress` reset the engine statistics to
zero before any other work, so their entire observable outcome is
independent of the statistics state left behind by earlier operations. -/
theorem stats_reset_independence (has7z hasRar : Bool) (wlib : Except String Unit)
    (lib : DCodec → Except String (List String)) (fs : FSEntry)
    (sp ap : List String) (oz : Nat) (fmt : String)
    (od : Option (List String)) (st1 st2 : Stats) :
    compress has7z wlib fs sp oz fmt st1 = compress has7z wlib fs sp oz fmt st2 ∧
    decompress has7z hasRar lib fs ap od st1 = decompress has7z hasRar lib fs ap od st2 :=
  ⟨rfl, rfl⟩
